import Mathlib

/-!
Verification of the ThreadForge task-scheduling engine
(`packages/react-native-threadforge/cpp`): a shallow embedding of the
priority work queue, the task completion protocol, admission control,
cancellation, pool resizing, descriptor parsing and the pipeline
registry, with theorems checking the specified properties.
-/

namespace ThreadForge

/-! ## Task result model (TaskResult.h / TaskResult.cpp) -/

/-- Mirrors `struct TaskResult` in TaskResult.h: a success flag, a cancelled
flag, the value payload and error message/stack strings. -/
structure TaskResult where
  success : Bool
  cancelled : Bool
  valueJson : String
  errorMessage : String
  errorStack : String
  deriving DecidableEq, Repr

/-- `makeSuccessResult` from TaskResult.cpp. -/
def makeSuccessResult (valueJson : String) : TaskResult :=
  { success := true, cancelled := false, valueJson := valueJson,
    errorMessage := "", errorStack := "" }

/-- `makeErrorResult` from TaskResult.cpp (the modelled call sites always use
the defaulted empty stack argument). -/
def makeErrorResult (message : String) : TaskResult :=
  { success := false, cancelled := false, valueJson := "",
    errorMessage := message, errorStack := "" }

/-- `makeCancelledResult` from TaskResult.cpp. -/
def makeCancelledResult : TaskResult :=
  { success := false, cancelled := true, valueJson := "",
    errorMessage := "Task cancelled", errorStack := "" }

/-! ## Task priority and the ready-queue comparator (ThreadPool.h) -/

/-- `enum class TaskPriority { LOW = 0, NORMAL = 1, HIGH = 2 }`. -/
inductive TaskPriority where
  | LOW
  | NORMAL
  | HIGH
  deriving DecidableEq, Repr

/-- The `static_cast<int>` of a `TaskPriority` value. -/
def TaskPriority.toInt : TaskPriority → Int
  | .LOW => 0
  | .NORMAL => 1
  | .HIGH => 2

/-- The scheduling-relevant attributes of a queued `Task` (ThreadPool.h,
`struct Task`): its priority and its submission sequence number. -/
structure QTask where
  priority : TaskPriority
  sequence : Nat
  deriving DecidableEq, Repr

/-- `TaskComparator::operator()` from ThreadPool.h lines 48-55: `lhs` is
ordered strictly below `rhs` when they share a priority and `lhs` has the
larger sequence number, or when `lhs` has the smaller priority value. -/
def taskBefore (lhs rhs : QTask) : Bool :=
  if lhs.priority = rhs.priority then
    decide (lhs.sequence > rhs.sequence)
  else
    decide (lhs.priority.toInt < rhs.priority.toInt)

/-- `std::priority_queue::top` returns a maximum element with respect to the
comparator; this selection scan computes it over a list model of the heap
contents. -/
def selectTop (best : QTask) : List QTask → QTask
  | [] => best
  | t :: rest => selectTop (if taskBefore best t then t else best) rest

/-- The task a worker's `tasks.top()` yields on a list model of the queue
(`none` on an empty queue). -/
def topTask : List QTask → Option QTask
  | [] => none
  | t :: ts => some (selectTop t ts)

/-- `t` is scheduled no later than `u`: `t` has strictly higher priority, or
equal priority and a sequence number at most `u`'s. -/
def schedGE (t u : QTask) : Prop :=
  u.priority.toInt < t.priority.toInt ∨
    (u.priority = t.priority ∧ t.sequence ≤ u.sequence)

theorem taskPriority_toInt_inj : ∀ a b : TaskPriority, a.toInt = b.toInt → a = b := by
  intro a b h
  cases a <;> cases b <;> simp_all [TaskPriority.toInt]

theorem schedGE_of_not_taskBefore {t u : QTask} (h : taskBefore t u = false) :
    schedGE t u := by
  unfold taskBefore at h
  by_cases hp : t.priority = u.priority
  · simp [hp] at h
    exact Or.inr ⟨hp.symm, h⟩
  · simp [hp] at h
    refine Or.inl (lt_of_le_of_ne h ?_)
    intro hEq
    exact hp (taskPriority_toInt_inj _ _ hEq.symm)

theorem schedGE_of_taskBefore {t u : QTask} (h : taskBefore t u = true) :
    schedGE u t := by
  unfold taskBefore at h
  by_cases hp : t.priority = u.priority
  · simp [hp] at h
    exact Or.inr ⟨hp, Nat.le_of_lt h⟩
  · simp [hp] at h
    exact Or.inl h

theorem schedGE_trans {t u v : QTask} (h1 : schedGE t u) (h2 : schedGE u v) :
    schedGE t v := by
  rcases h1 with h1 | ⟨h1e, h1s⟩
  · rcases h2 with h2 | ⟨h2e, h2s⟩
    · exact Or.inl (h2.trans h1)
    · exact Or.inl (h2e ▸ h1)
  · rcases h2 with h2 | ⟨h2e, h2s⟩
    · exact Or.inl (h1e ▸ h2)
    · exact Or.inr ⟨h2e.trans h1e, h1s.trans h2s⟩

theorem selectTop_spec (rest : List QTask) : ∀ best : QTask,
    (selectTop best rest = best ∨ selectTop best rest ∈ rest) ∧
      schedGE (selectTop best rest) best ∧
      ∀ u ∈ rest, schedGE (selectTop best rest) u := by
  induction rest with
  | nil =>
    intro best
    refine ⟨Or.inl rfl, Or.inr ⟨rfl, le_refl _⟩, ?_⟩
    intro u hu
    exact absurd hu (List.not_mem_nil u)
  | cons t rest ih =>
    intro best
    cases hb : taskBefore best t with
    | true =>
      have h := ih t
      have hsel : selectTop best (t :: rest) = selectTop t rest := by
        simp [selectTop, hb]
      rw [hsel]
      refine ⟨?_, ?_, ?_⟩
      · rcases h.1 with h1 | h1
        · rw [h1]; exact Or.inr (List.mem_cons_self t rest)
        · exact Or.inr (List.mem_cons_of_mem t h1)
      · exact schedGE_trans h.2.1 (schedGE_of_taskBefore hb)
      · intro u hu
        rcases List.mem_cons.mp hu with hu | hu
        · rw [hu]; exact h.2.1
        · exact h.2.2 u hu
    | false =>
      have h := ih best
      have hsel : selectTop best (t :: rest) = selectTop best rest := by
        simp [selectTop, hb]
      rw [hsel]
      refine ⟨?_, h.2.1, ?_⟩
      · rcases h.1 with h1 | h1
        · exact Or.inl h1
        · exact Or.inr (List.mem_cons_of_mem t h1)
      · intro u hu
        rcases List.mem_cons.mp hu with hu | hu
        · rw [hu]; exact schedGE_trans h.2.1 (schedGE_of_not_taskBefore hb)
        · exact h.2.2 u hu

/-- C1: whenever a worker dequeues from a non-empty ready queue, the popped
task is a member of the queue, of maximal priority, and of minimal sequence
number among the queued tasks of that priority. -/
theorem dequeue_maximal_priority_fifo (l : List QTask) (t : QTask)
    (h : topTask l = some t) :
    t ∈ l ∧ ∀ u ∈ l, u.priority.toInt ≤ t.priority.toInt ∧
      (u.priority = t.priority → t.sequence ≤ u.sequence) := by
  cases l with
  | nil => simp [topTask] at h
  | cons hd tl =>
    simp only [topTask, Option.some.injEq] at h
    subst h
    have h := selectTop_spec tl hd
    constructor
    · rcases h.1 with h1 | h1
      · rw [h1]; exact List.mem_cons_self hd tl
      · exact List.mem_cons_of_mem hd h1
    · intro u hu
      have hGE : schedGE (selectTop hd tl) u := by
        rcases List.mem_cons.mp hu with hu | hu
        · exact hu ▸ h.2.1
        · exact h.2.2 u hu
      rcases hGE with hlt | ⟨hEq, hseq⟩
      · constructor
        · exact le_of_lt hlt
        · intro hp
          exact absurd (congrArg TaskPriority.toInt hp) (ne_of_lt hlt)
      · exact ⟨le_of_eq (congrArg TaskPriority.toInt hEq), fun _ => hseq⟩

/-- Witness for C1 at a concrete three-task queue: the NORMAL-priority task
with the smaller sequence number is selected over a later NORMAL task and an
earlier LOW task. -/
theorem dequeue_maximal_priority_fifo_witness :
    topTask [⟨.LOW, 0⟩, ⟨.NORMAL, 2⟩, ⟨.NORMAL, 1⟩] = some ⟨.NORMAL, 1⟩ ∧
      (⟨.NORMAL, 1⟩ : QTask) ∈ [⟨.LOW, 0⟩, ⟨.NORMAL, 2⟩, (⟨.NORMAL, 1⟩ : QTask)] ∧
      ∀ u ∈ [⟨.LOW, 0⟩, ⟨.NORMAL, 2⟩, (⟨.NORMAL, 1⟩ : QTask)],
        u.priority.toInt ≤ (TaskPriority.NORMAL).toInt ∧
        (u.priority = .NORMAL → 1 ≤ u.sequence) := by
  refine ⟨by decide, ?_⟩
  exact dequeue_maximal_priority_fifo _ ⟨.NORMAL, 1⟩ (by decide)

/-! ## Pool state, admission control (ThreadPool.cpp `submitTask`) and
resizing (`setConcurrency`) -/

/-- The pool-level state of `class ThreadPool` (ThreadPool.h lines 81-92),
with the queue as a list of scheduling keys, the id map as an association
list, worker threads by count, and the atomic counters as naturals. -/
structure PoolState where
  workers : Nat
  queue : List QTask
  taskMap : List (String × QTask)
  stop : Bool
  paused : Bool
  pendingTasks : Nat
  activeTasks : Nat
  sequenceCounter : Nat
  queueLimit : Nat
  deriving DecidableEq, Repr

/-- `taskMap[taskId] = taskObj`: `std::unordered_map::operator[]` assignment,
overwriting any existing entry for the key. -/
def mapInsert (m : List (String × QTask)) (key : String) (t : QTask) :
    List (String × QTask) :=
  (key, t) :: m.filter (fun e => e.1 ≠ key)

/-- The admission-control portion of `ThreadPool::submitTask`
(ThreadPool.cpp lines 101-121): the sequence counter is incremented
unconditionally (`sequenceCounter.fetch_add(1)`), then under the pool lock
the stop flag and the queue limit are checked; on rejection an error
`TaskResult` is returned, otherwise the task is pushed onto the queue,
entered into the id map, and the pending counter is incremented. The
result pairs the next pool state with `some r` when the call returned the
rejection result `r` without enqueueing, and `none` when the task was
admitted. -/
def submitTask (st : PoolState) (taskId : String) (priority : TaskPriority) :
    PoolState × Option TaskResult :=
  let sequence := st.sequenceCounter
  let st := { st with sequenceCounter := st.sequenceCounter + 1 }
  let taskObj : QTask := { priority := priority, sequence := sequence }
  if st.stop then
    (st, some (makeErrorResult "ThreadPool is stopped"))
  else if st.queueLimit > 0 ∧ st.pendingTasks ≥ st.queueLimit then
    (st, some (makeErrorResult "ThreadPool queue limit reached"))
  else
    ({ st with queue := st.queue ++ [taskObj],
               taskMap := mapInsert st.taskMap taskId taskObj,
               pendingTasks := st.pendingTasks + 1 }, none)

/-- `ThreadPool::setConcurrency` (ThreadPool.cpp lines 195-226): a zero
request is clamped to one; if any task is pending or active the call throws
and changes nothing; otherwise all current workers are signalled and joined
and exactly the requested number of fresh workers is spawned, with the stop
and pause flags ending cleared. `Except.error` carries the exception
message, pairing it with the unchanged state. -/
def setConcurrency (st : PoolState) (threads : Nat) : Except String PoolState × PoolState :=
  let t := if threads = 0 then 1 else threads
  if st.pendingTasks > 0 ∨ st.activeTasks > 0 then
    (Except.error "Cannot resize thread pool while tasks are pending or active", st)
  else
    let st' := { st with workers := t, stop := false, paused := false }
    (Except.ok st', st')

/-- C4: `submitTask` rejects exactly when the stop flag is set or a non-zero
queue limit is already met by the pending count; on rejection the queue, the
id map and the pending/active counters are unchanged and no task is tracked
anywhere; a queue limit of zero never causes a rejection. -/
theorem submitTask_rejection (st : PoolState) (taskId : String)
    (priority : TaskPriority) :
    ((submitTask st taskId priority).2.isSome ↔
      (st.stop = true ∨ (st.queueLimit > 0 ∧ st.pendingTasks ≥ st.queueLimit))) ∧
    ((submitTask st taskId priority).2.isSome →
      (submitTask st taskId priority).1.queue = st.queue ∧
      (submitTask st taskId priority).1.taskMap = st.taskMap ∧
      (submitTask st taskId priority).1.pendingTasks = st.pendingTasks ∧
      (submitTask st taskId priority).1.activeTasks = st.activeTasks) ∧
    (st.queueLimit = 0 → st.stop = false → (submitTask st taskId priority).2 = none) := by
  unfold submitTask
  by_cases hstop : st.stop = true
  · simp [hstop]
  · simp only [Bool.not_eq_true] at hstop
    by_cases hlim : st.queueLimit > 0 ∧ st.pendingTasks ≥ st.queueLimit
    · simp [hstop, hlim]
      omega
    · simp [hstop, hlim]

/-- A stopped pool with an empty queue. -/
def stoppedPool : PoolState :=
  { workers := 2, queue := [], taskMap := [], stop := true, paused := false,
    pendingTasks := 0, activeTasks := 0, sequenceCounter := 5, queueLimit := 0 }

/-- A running pool with no queue limit. -/
def openPool : PoolState :=
  { workers := 2, queue := [], taskMap := [], stop := false, paused := false,
    pendingTasks := 7, activeTasks := 1, sequenceCounter := 9, queueLimit := 0 }

/-- Witness for C4: a stopped pool rejects and leaves the queue, the id map
and the pending/active counters untouched; a running pool with queue limit
zero admits despite seven pending tasks. -/
theorem submitTask_rejection_witness :
    ((submitTask stoppedPool "a" .NORMAL).1.queue = stoppedPool.queue ∧
     (submitTask stoppedPool "a" .NORMAL).1.taskMap = stoppedPool.taskMap ∧
     (submitTask stoppedPool "a" .NORMAL).1.pendingTasks = stoppedPool.pendingTasks ∧
     (submitTask stoppedPool "a" .NORMAL).1.activeTasks = stoppedPool.activeTasks) ∧
    (submitTask openPool "b" .NORMAL).2 = none :=
  ⟨(submitTask_rejection stoppedPool "a" .NORMAL).2.1 rfl,
   (submitTask_rejection openPool "b" .NORMAL).2.2 rfl rfl⟩

/-- C6: with any task pending or active, `setConcurrency` fails with the
concurrency-constraint error and returns the pool state entirely unchanged;
with zero pending and zero active tasks it succeeds and the pool ends with
exactly `max 1 n` workers. -/
theorem setConcurrency_spec (st : PoolState) (n : Nat) :
    (st.pendingTasks > 0 ∨ st.activeTasks > 0 →
      (setConcurrency st n).1 =
        Except.error "Cannot resize thread pool while tasks are pending or active" ∧
      (setConcurrency st n).2 = st) ∧
    (st.pendingTasks = 0 → st.activeTasks = 0 →
      (setConcurrency st n).1 = Except.ok (setConcurrency st n).2 ∧
      (setConcurrency st n).2.workers = max 1 n) := by
  unfold setConcurrency
  by_cases h : st.pendingTasks > 0 ∨ st.activeTasks > 0
  · simp [h]
    intro hp ha
    rcases h with h | h
    · omega
    · omega
  · simp [h]
    intro _ _
    cases n with
    | zero => simp
    | succ k => simp [Nat.max_eq_right (Nat.succ_le_succ (Nat.zero_le k))]

/-- Witness for C6: a quiescent pool resized to 3 workers succeeds, and a
busy pool (one pending task) fails with its state intact. -/
theorem setConcurrency_spec_witness :
    let busy : PoolState :=
      { workers := 2, queue := [⟨.LOW, 0⟩], taskMap := [("a", ⟨.LOW, 0⟩)],
        stop := false, paused := false, pendingTasks := 1, activeTasks := 0,
        sequenceCounter := 1, queueLimit := 0 }
    let idle : PoolState :=
      { workers := 2, queue := [], taskMap := [], stop := false, paused := false,
        pendingTasks := 0, activeTasks := 0, sequenceCounter := 1, queueLimit := 0 }
    ((setConcurrency busy 3).1 =
        Except.error "Cannot resize thread pool while tasks are pending or active" ∧
      (setConcurrency busy 3).2 = busy) ∧
    ((setConcurrency idle 3).1 = Except.ok (setConcurrency idle 3).2 ∧
      (setConcurrency idle 3).2.workers = max 1 3) := by
  refine ⟨?_, ?_⟩
  · exact (setConcurrency_spec _ 3).1 (by decide)
  · exact (setConcurrency_spec _ 3).2 rfl rfl

/-! ## Cancellation of a queued task (ThreadPool.cpp `cancelTask` and the
worker's dequeue short-circuit, lines 29-47 and 140-164) -/

/-- The default-constructed `TaskResult` stored in a fresh `Task`
(ThreadPool.h line 38 together with the member initializers of
TaskResult.h). -/
def defaultTaskResult : TaskResult :=
  { success := false, cancelled := false, valueJson := "",
    errorMessage := "", errorStack := "" }

/-- The per-task state relevant to cancelling a queued task: the atomic
cancellation flag, whether a worker has popped the task, whether the
runnable body was ever invoked, and the completion fields guarded by the
task's private mutex. -/
structure TaskExecState where
  cancelled : Bool
  dequeued : Bool
  ranBody : Bool
  finished : Bool
  hasResult : Bool
  result : TaskResult
  deriving DecidableEq, Repr

/-- Events acting on one tracked task: `cancel` is a `ThreadPool::cancelTask`
call that finds the task in the id map (sets the flag, then under the task
lock writes a cancelled result unless one exists and marks it finished);
`dequeue` is a worker popping the task (at most once), which short-circuits
to a cancelled result when the flag is set and otherwise starts the
runnable body. -/
inductive TaskEvent where
  | cancel
  | dequeue
  deriving DecidableEq, Repr

/-- One event's effect on the task state, translated from ThreadPool.cpp
lines 140-161 (`cancel`) and lines 33-49 (`dequeue`). -/
def taskStep (st : TaskExecState) (e : TaskEvent) : TaskExecState :=
  match e with
  | .cancel =>
    let st := { st with cancelled := true }
    if st.hasResult then
      { st with finished := true }
    else
      { st with result := makeCancelledResult, hasResult := true, finished := true }
  | .dequeue =>
    if st.dequeued then st
    else
      let st := { st with dequeued := true }
      if st.cancelled then
        { st with result := makeCancelledResult, hasResult := true, finished := true }
      else
        { st with ranBody := true }

/-- Folding a list of events over the task state. -/
def runTaskTrace (st : TaskExecState) (evs : List TaskEvent) : TaskExecState :=
  evs.foldl taskStep st

/-- The state of a freshly submitted, still-queued task. -/
def initTaskExec : TaskExecState :=
  { cancelled := false, dequeued := false, ranBody := false,
    finished := false, hasResult := false, result := defaultTaskResult }

/-- Invariant before any dequeue: the task was never popped, its body never
ran, and the only possible stored result is the synthesized cancelled one. -/
def PreDequeueInv (st : TaskExecState) : Prop :=
  st.dequeued = false ∧ st.ranBody = false ∧
    (st.hasResult = true → st.result = makeCancelledResult)

/-- Invariant after a cancellation has finalized the task: the flag is set,
the cancelled result is stored and finished, and the body never ran. -/
def CancelledDoneInv (st : TaskExecState) : Prop :=
  st.cancelled = true ∧ st.hasResult = true ∧
    st.result = makeCancelledResult ∧ st.finished = true ∧ st.ranBody = false

theorem preDequeueInv_run : ∀ (l : List TaskEvent) (st : TaskExecState),
    TaskEvent.dequeue ∉ l → PreDequeueInv st → PreDequeueInv (runTaskTrace st l) := by
  intro l
  induction l with
  | nil => intro st _ h; exact h
  | cons e rest ih =>
    intro st hmem h
    have hc : e = TaskEvent.cancel := by
      cases e
      · rfl
      · exact absurd (List.mem_cons_self _ _) hmem
    subst hc
    have hrest : TaskEvent.dequeue ∉ rest := fun hr => hmem (List.mem_cons_of_mem _ hr)
    refine ih (taskStep st .cancel) hrest ?_
    obtain ⟨h1, h2, h3⟩ := h
    by_cases hres : st.hasResult = true
    · exact ⟨by simp [taskStep, hres, h1], by simp [taskStep, hres, h2],
        fun _ => by simp [taskStep, hres]; exact h3 hres⟩
    · simp only [Bool.not_eq_true] at hres
      exact ⟨by simp [taskStep, hres, h1], by simp [taskStep, hres, h2],
        fun _ => by simp [taskStep, hres]⟩

theorem cancelledDoneInv_step (st : TaskExecState) (e : TaskEvent)
    (h : CancelledDoneInv st) : CancelledDoneInv (taskStep st e) := by
  obtain ⟨h1, h2, h3, h4, h5⟩ := h
  cases e
  · exact ⟨by simp [taskStep, h2, h1], by simp [taskStep, h2],
      by simp [taskStep, h2, h3], by simp [taskStep, h2], by simp [taskStep, h2, h5]⟩
  · by_cases hd : st.dequeued = true
    · simpa [taskStep, hd] using ⟨h1, h2, h3, h4, h5⟩
    · simp only [Bool.not_eq_true] at hd
      exact ⟨by simp [taskStep, hd, h1], by simp [taskStep, hd, h1],
        by simp [taskStep, hd, h1], by simp [taskStep, hd, h1],
        by simp [taskStep, hd, h1, h5]⟩

theorem cancelledDoneInv_run : ∀ (l : List TaskEvent) (st : TaskExecState),
    CancelledDoneInv st → CancelledDoneInv (runTaskTrace st l) := by
  intro l
  induction l with
  | nil => intro st h; exact h
  | cons e rest ih =>
    intro st h
    exact ih (taskStep st e) (cancelledDoneInv_step st e h)

theorem cancel_finalizes (st : TaskExecState) (h : PreDequeueInv st) :
    CancelledDoneInv (taskStep st .cancel) := by
  obtain ⟨h1, h2, h3⟩ := h
  by_cases hres : st.hasResult = true
  · exact ⟨by simp [taskStep, hres], by simp [taskStep, hres],
      by simp [taskStep, hres]; exact h3 hres, by simp [taskStep, hres],
      by simp [taskStep, hres, h2]⟩
  · simp only [Bool.not_eq_true] at hres
    exact ⟨by simp [taskStep, hres], by simp [taskStep, hres],
      by simp [taskStep, hres], by simp [taskStep, hres],
      by simp [taskStep, hres, h2]⟩

/-- C5: if a task is cancelled before any worker has dequeued it, then in the
final state its runnable body was never invoked and it is finalized as
`Cancelled`: the stored result is exactly the synthesized cancelled result. -/
theorem cancelled_while_queued_never_runs (l1 rest : List TaskEvent)
    (h : TaskEvent.dequeue ∉ l1) :
    (runTaskTrace initTaskExec (l1 ++ TaskEvent.cancel :: rest)).ranBody = false ∧
    (runTaskTrace initTaskExec (l1 ++ TaskEvent.cancel :: rest)).finished = true ∧
    (runTaskTrace initTaskExec (l1 ++ TaskEvent.cancel :: rest)).result =
      makeCancelledResult := by
  have hpre : PreDequeueInv (runTaskTrace initTaskExec l1) :=
    preDequeueInv_run l1 initTaskExec h ⟨rfl, rfl, by intro hh; simp [initTaskExec] at hh⟩
  have hdone : CancelledDoneInv (taskStep (runTaskTrace initTaskExec l1) .cancel) :=
    cancel_finalizes _ hpre
  have hfinal : CancelledDoneInv (runTaskTrace initTaskExec (l1 ++ TaskEvent.cancel :: rest)) := by
    have : runTaskTrace initTaskExec (l1 ++ TaskEvent.cancel :: rest) =
        runTaskTrace (taskStep (runTaskTrace initTaskExec l1) .cancel) rest := by
      simp [runTaskTrace, List.foldl_append]
    rw [this]
    exact cancelledDoneInv_run rest _ hdone
  exact ⟨hfinal.2.2.2.2, hfinal.2.2.2.1, hfinal.2.2.1⟩

/-- Witness for C5 with the cancel arriving immediately after submission and
a worker dequeuing afterwards: the body never runs and the task finishes
with the cancelled result. -/
theorem cancelled_while_queued_never_runs_witness :
    (runTaskTrace initTaskExec ([] ++ TaskEvent.cancel :: [TaskEvent.dequeue])).ranBody = false ∧
    (runTaskTrace initTaskExec ([] ++ TaskEvent.cancel :: [TaskEvent.dequeue])).finished = true ∧
    (runTaskTrace initTaskExec ([] ++ TaskEvent.cancel :: [TaskEvent.dequeue])).result =
      makeCancelledResult :=
  cancelled_while_queued_never_runs [] [TaskEvent.dequeue] (List.not_mem_nil _)

/-! ## The finish protocol: first writer wins (ThreadPool.cpp lines 37-47,
78-95 and 140-164) -/

/-- The completion fields of one task, guarded by its private mutex, plus
its atomic cancellation flag. -/
structure FinishState where
  cancelled : Bool
  finished : Bool
  hasResult : Bool
  result : TaskResult
  deriving DecidableEq, Repr

/-- The critical sections that touch a task's completion fields:
`setCancelled` is the pool-lock part of `cancelTask` (line 149);
`cancelFinalize` its task-lock part (lines 152-159); `dequeueCancelled` the
worker's short-circuit for a task found cancelled at pop (lines 40-44);
`workerComplete r hasLocal` the worker's post-execution finalization (lines
78-95) with the locally computed result `r`. -/
inductive FinishOp where
  | setCancelled
  | cancelFinalize
  | dequeueCancelled
  | workerComplete (r : TaskResult) (hasLocal : Bool)
  deriving DecidableEq, Repr

/-- One critical section's effect, translated from ThreadPool.cpp. -/
def finishStep (st : FinishState) (op : FinishOp) : FinishState :=
  match op with
  | .setCancelled => { st with cancelled := true }
  | .cancelFinalize =>
    if st.hasResult then { st with finished := true }
    else { st with result := makeCancelledResult, hasResult := true, finished := true }
  | .dequeueCancelled =>
    { st with result := makeCancelledResult, hasResult := true, finished := true }
  | .workerComplete r hasLocal =>
    if st.finished then st
    else
      let resolved :=
        if st.cancelled then
          { r with cancelled := true, success := false,
                   errorMessage :=
                     if r.errorMessage = "" then "Task cancelled" else r.errorMessage,
                   valueJson := "" }
        else if hasLocal then r
        else makeErrorResult "ThreadForge task completed without result"
      { st with result := resolved, hasResult := true, finished := true }

/-- The two worker-side finalizations; each task is popped from the queue
exactly once, so per task at most one of them ever runs. -/
def isWorkerOp : FinishOp → Bool
  | .dequeueCancelled => true
  | .workerComplete _ _ => true
  | _ => false

/-- Number of worker-side finalizations in a trace. -/
def countWorkerOps : List FinishOp → Nat
  | [] => 0
  | op :: rest => (if isWorkerOp op then 1 else 0) + countWorkerOps rest

/-- `dequeueCancelled` is only reached when the worker observed the task's
cancellation flag set; the other sections are unconditional. -/
def opEnabled (st : FinishState) : FinishOp → Bool
  | .dequeueCancelled => st.cancelled
  | _ => true

/-- A trace is valid from a state when every operation is enabled where it
occurs. -/
def validFrom (st : FinishState) : List FinishOp → Bool
  | [] => true
  | op :: rest => opEnabled st op && validFrom (finishStep st op) rest

/-- Folding a trace of critical sections over the completion state. -/
def runFinishOps (st : FinishState) (ops : List FinishOp) : FinishState :=
  ops.foldl finishStep st

/-- The completion state of a freshly created task. -/
def initFinish : FinishState :=
  { cancelled := false, finished := false, hasResult := false,
    result := defaultTaskResult }

/-- Protocol invariant, parameterized by the number `u` of worker-side
finalizations so far: a finished task has a stored result, and before any
worker-side finalization the only possible stored result is the
synthesized cancelled one. -/
def FinishInv (st : FinishState) (u : Nat) : Prop :=
  (st.finished = true → st.hasResult = true) ∧
  (u = 0 → st.hasResult = true → st.result = makeCancelledResult)

theorem finishInv_step (st : FinishState) (op : FinishOp) (u : Nat)
    (h : FinishInv st u) :
    FinishInv (finishStep st op) (u + (if isWorkerOp op then 1 else 0)) := by
  obtain ⟨h1, h2⟩ := h
  cases op with
  | setCancelled =>
    refine ⟨fun hf => h1 hf, fun hu hr => h2 ?_ hr⟩
    simpa [isWorkerOp] using hu
  | cancelFinalize =>
    by_cases hres : st.hasResult = true
    · have hstep : finishStep st .cancelFinalize = { st with finished := true } := by
        simp [finishStep, hres]
      rw [hstep]
      refine ⟨fun _ => hres, fun hu _ => h2 ?_ hres⟩
      simpa [isWorkerOp] using hu
    · simp only [Bool.not_eq_true] at hres
      have hstep : finishStep st .cancelFinalize =
          { st with result := makeCancelledResult, hasResult := true, finished := true } := by
        simp [finishStep, hres]
      rw [hstep]
      exact ⟨fun _ => rfl, fun _ _ => rfl⟩
  | dequeueCancelled =>
    refine ⟨fun _ => rfl, fun hu _ => ?_⟩
    simp [isWorkerOp] at hu
  | workerComplete r hasLocal =>
    by_cases hfin : st.finished = true
    · have hstep : finishStep st (.workerComplete r hasLocal) = st := by
        simp [finishStep, hfin]
      rw [hstep]
      refine ⟨h1, fun hu _ => ?_⟩
      simp [isWorkerOp] at hu
    · simp only [Bool.not_eq_true] at hfin
      refine ⟨fun _ => ?_, fun hu _ => ?_⟩
      · simp [finishStep, hfin]
      · simp [isWorkerOp] at hu

theorem finishStep_stable (st : FinishState) (op : FinishOp) (u : Nat)
    (h : FinishInv st u) (hfin : st.finished = true)
    (hen : opEnabled st op = true)
    (hu : u + (if isWorkerOp op then 1 else 0) ≤ 1) :
    (finishStep st op).result = st.result ∧ (finishStep st op).finished = true := by
  obtain ⟨h1, h2⟩ := h
  cases op with
  | setCancelled => simp [finishStep, hfin]
  | cancelFinalize =>
    have hres : st.hasResult = true := h1 hfin
    simp [finishStep, hres]
  | dequeueCancelled =>
    have hzero : u = 0 := by simp [isWorkerOp] at hu; omega
    have hres : st.hasResult = true := h1 hfin
    have hmcr : st.result = makeCancelledResult := h2 hzero hres
    simp [finishStep, hmcr]
  | workerComplete r hasLocal => simp [finishStep, hfin]

theorem finishRun_stable : ∀ (ops : List FinishOp) (st : FinishState) (u : Nat),
    FinishInv st u → st.finished = true → validFrom st ops = true →
    u + countWorkerOps ops ≤ 1 →
    (runFinishOps st ops).result = st.result ∧ (runFinishOps st ops).finished = true := by
  intro ops
  induction ops with
  | nil => intro st u _ hfin _ _; exact ⟨rfl, hfin⟩
  | cons op rest ih =>
    intro st u hInv hfin hvalid hcount
    have hvalid' := hvalid
    simp only [validFrom, Bool.and_eq_true] at hvalid'
    have hbound : u + (if isWorkerOp op then 1 else 0) ≤ 1 := by
      simp only [countWorkerOps] at hcount
      omega
    have hstep := finishStep_stable st op u hInv hfin hvalid'.1 hbound
    have hInv' := finishInv_step st op u hInv
    have hrest := ih (finishStep st op) (u + (if isWorkerOp op then 1 else 0))
      hInv' hstep.2 hvalid'.2 (by simp only [countWorkerOps] at hcount; omega)
    refine ⟨?_, hrest.2⟩
    calc (runFinishOps st (op :: rest)).result
        = (runFinishOps (finishStep st op) rest).result := rfl
      _ = (finishStep st op).result := hrest.1
      _ = st.result := hstep.1

theorem finishInv_run : ∀ (ops : List FinishOp) (st : FinishState) (u : Nat),
    FinishInv st u → FinishInv (runFinishOps st ops) (u + countWorkerOps ops) := by
  intro ops
  induction ops with
  | nil => intro st u h; simpa [runFinishOps, countWorkerOps] using h
  | cons op rest ih =>
    intro st u h
    have h' := finishInv_step st op u h
    have := ih (finishStep st op) (u + (if isWorkerOp op then 1 else 0)) h'
    simpa [runFinishOps, countWorkerOps, Nat.add_assoc] using this

theorem countWorkerOps_append (l1 l2 : List FinishOp) :
    countWorkerOps (l1 ++ l2) = countWorkerOps l1 + countWorkerOps l2 := by
  induction l1 with
  | nil => simp [countWorkerOps]
  | cons op rest ih => simp [countWorkerOps, ih]; omega

theorem validFrom_append (l1 l2 : List FinishOp) : ∀ st : FinishState,
    validFrom st (l1 ++ l2) =
      (validFrom st l1 && validFrom (runFinishOps st l1) l2) := by
  induction l1 with
  | nil => intro st; simp [validFrom, runFinishOps]
  | cons op rest ih =>
    intro st
    simp [validFrom, runFinishOps, ih (finishStep st op), Bool.and_assoc]

/-- C2: over any valid interleaving of the completion critical sections with
at most one worker-side finalization, once the task is finished it stays
finished and the stored result never changes: the first writer to perform
the finish transition determines the task's result, and later writers do
not alter it. -/
theorem finish_first_writer_wins (ops1 ops2 : List FinishOp)
    (hValid : validFrom initFinish (ops1 ++ ops2) = true)
    (hCount : countWorkerOps (ops1 ++ ops2) ≤ 1)
    (hFin : (runFinishOps initFinish ops1).finished = true) :
    (runFinishOps initFinish (ops1 ++ ops2)).result =
      (runFinishOps initFinish ops1).result ∧
    (runFinishOps initFinish (ops1 ++ ops2)).finished = true := by
  have hInit : FinishInv initFinish 0 := by
    constructor
    · intro h; simp [initFinish] at h
    · intro _ h; simp [initFinish] at h
  have hInv1 : FinishInv (runFinishOps initFinish ops1) (0 + countWorkerOps ops1) :=
    finishInv_run ops1 initFinish 0 hInit
  rw [validFrom_append, Bool.and_eq_true] at hValid
  rw [countWorkerOps_append] at hCount
  have hsplit : runFinishOps initFinish (ops1 ++ ops2) =
      runFinishOps (runFinishOps initFinish ops1) ops2 := by
    simp [runFinishOps, List.foldl_append]
  rw [hsplit]
  exact finishRun_stable ops2 (runFinishOps initFinish ops1) (0 + countWorkerOps ops1)
    hInv1 hFin hValid.2 (by omega)

/-- Witness for C2: a task cancelled and finalized by the canceller, then
dequeued by a worker that observes the flag — the stored result is
unchanged by the worker's section. -/
theorem finish_first_writer_wins_witness :
    validFrom initFinish ([FinishOp.setCancelled, FinishOp.cancelFinalize] ++
      [FinishOp.dequeueCancelled]) = true ∧
    countWorkerOps ([FinishOp.setCancelled, FinishOp.cancelFinalize] ++
      [FinishOp.dequeueCancelled]) ≤ 1 ∧
    (runFinishOps initFinish [FinishOp.setCancelled, FinishOp.cancelFinalize]).finished = true ∧
    ((runFinishOps initFinish ([FinishOp.setCancelled, FinishOp.cancelFinalize] ++
        [FinishOp.dequeueCancelled])).result =
      (runFinishOps initFinish [FinishOp.setCancelled, FinishOp.cancelFinalize]).result ∧
     (runFinishOps initFinish ([FinishOp.setCancelled, FinishOp.cancelFinalize] ++
        [FinishOp.dequeueCancelled])).finished = true) :=
  ⟨by decide, by decide, by decide,
    finish_first_writer_wins [FinishOp.setCancelled, FinishOp.cancelFinalize]
      [FinishOp.dequeueCancelled] (by decide) (by decide) (by decide)⟩

/-! ## Pipeline progress aggregation (CustomTaskRegistry.cpp lines 132-164) -/

/-- `std::min(1.0, std::max(0.0, stepProgress))`: the normalization applied
to each step's own progress report. -/
def clamp01 (p : ℚ) : ℚ := min 1 (max 0 p)

/-- The overall progress values forwarded for one step's own emissions
`ps`, with completed weight `accumulated` and this step's weight
`stepWeight` (CustomTaskRegistry.cpp lines 144-148). -/
def stepEmits (accumulated stepWeight : ℚ) (ps : List ℚ) : List ℚ :=
  ps.map (fun p => min 1 (accumulated + clamp01 p * stepWeight))

/-- The overall progress sequence emitted by the composite runnable's step
loop followed by the forced terminal `progress(1.0)` (lines 142-158),
given each remaining step's own emissions. -/
def pipelineEmitsAux (stepWeight : ℚ) : ℚ → List (List ℚ) → List ℚ
  | _, [] => [1]
  | accumulated, ps :: rest =>
    stepEmits accumulated stepWeight ps ++
      pipelineEmitsAux stepWeight (min 1 (accumulated + stepWeight)) rest

/-- The overall progress sequence of the composite runnable: weight `1/N`
per step, accumulated weight starting at zero (the zero-step branch of the
lambda likewise emits the single value `1.0`). -/
def pipelineEmits (stepEmissions : List (List ℚ)) : List ℚ :=
  pipelineEmitsAux (1 / (stepEmissions.length : ℚ)) 0 stepEmissions

/-- C3 counterexample: a one-step pipeline whose step reports the values
`1` then `0` — both within `[0,1]` — yields the overall sequence
`[1, 0, 1]`, which is not non-decreasing and emits `1.0` twice (the last
step's own full-weight emission and the forced terminal emission), so the
overall sequence does not reach `1.0` exactly once. -/
theorem pipeline_progress_counterexample :
    (∀ p ∈ ([1, 0] : List ℚ), 0 ≤ p ∧ p ≤ 1) ∧
    pipelineEmits [[1, 0]] = [1, 0, 1] ∧
    ¬ List.Chain' (· ≤ ·) (pipelineEmits [[1, 0]]) ∧
    List.count (1 : ℚ) (pipelineEmits [[1, 0]]) = 2 := by
  have h : pipelineEmits [[1, 0]] = [1, 0, 1] := by
    show pipelineEmitsAux (1 / (1 : ℚ)) 0 [[1, 0]] = [1, 0, 1]
    norm_num [pipelineEmitsAux, stepEmits, clamp01]
  refine ⟨by decide, h, ?_, ?_⟩
  · rw [h]
    intro hch
    rw [List.chain'_cons] at hch
    exact absurd hch.1 (by norm_num)
  · rw [h]
    norm_num [List.count_cons]

theorem clamp01_nonneg (p : ℚ) : 0 ≤ clamp01 p :=
  le_min (by norm_num) (le_max_left 0 p)

theorem clamp01_le_one (p : ℚ) : clamp01 p ≤ 1 :=
  min_le_left 1 _

theorem clamp01_mono {p q : ℚ} (h : p ≤ q) : clamp01 p ≤ clamp01 q :=
  min_le_min (le_refl 1) (max_le_max (le_refl 0) h)

theorem stepEmits_bounds (accumulated stepWeight : ℚ) (ps : List ℚ)
    (hacc1 : accumulated ≤ 1) (hw : 0 ≤ stepWeight) :
    ∀ e ∈ stepEmits accumulated stepWeight ps,
      accumulated ≤ e ∧ e ≤ min 1 (accumulated + stepWeight) := by
  intro e he
  obtain ⟨p, _, rfl⟩ := List.mem_map.mp he
  have h0 : (0 : ℚ) ≤ clamp01 p * stepWeight := mul_nonneg (clamp01_nonneg p) hw
  constructor
  · calc accumulated = min 1 accumulated := (min_eq_right hacc1).symm
      _ ≤ min 1 (accumulated + clamp01 p * stepWeight) :=
          min_le_min (le_refl 1) (le_add_of_nonneg_right h0)
  · exact min_le_min (le_refl 1)
      (add_le_add_left (mul_le_of_le_one_left hw (clamp01_le_one p)) accumulated)

theorem stepEmits_chain (accumulated stepWeight : ℚ) (ps : List ℚ)
    (hw : 0 ≤ stepWeight) (hchain : List.Chain' (· ≤ ·) ps) :
    List.Chain' (· ≤ ·) (stepEmits accumulated stepWeight ps) := by
  unfold stepEmits
  exact List.chain'_map_of_chain'
    (fun p => min 1 (accumulated + clamp01 p * stepWeight))
    (fun a b hab =>
      min_le_min (le_refl 1)
        (add_le_add_left (mul_le_mul_of_nonneg_right (clamp01_mono hab) hw) _))
    hchain

theorem pipelineEmitsAux_ne_nil (stepWeight : ℚ) :
    ∀ (ls : List (List ℚ)) (accumulated : ℚ),
      pipelineEmitsAux stepWeight accumulated ls ≠ [] := by
  intro ls
  induction ls with
  | nil => intro acc h; simp [pipelineEmitsAux] at h
  | cons ps rest ih =>
    intro acc h
    rcases List.append_eq_nil.mp h with ⟨_, h2⟩
    exact ih _ h2

theorem pipelineEmitsAux_spec (stepWeight : ℚ) (hw : 0 ≤ stepWeight) :
    ∀ (ls : List (List ℚ)) (accumulated : ℚ),
      0 ≤ accumulated → accumulated ≤ 1 →
      (∀ ps ∈ ls, List.Chain' (· ≤ ·) ps) →
      List.Chain' (· ≤ ·) (pipelineEmitsAux stepWeight accumulated ls) ∧
      (∀ x ∈ pipelineEmitsAux stepWeight accumulated ls, accumulated ≤ x ∧ x ≤ 1) ∧
      (pipelineEmitsAux stepWeight accumulated ls).getLast? = some 1 := by
  intro ls
  induction ls with
  | nil =>
    intro acc hacc0 hacc1 _
    refine ⟨List.chain'_singleton 1, ?_, rfl⟩
    intro x hx
    simp only [pipelineEmitsAux, List.mem_singleton] at hx
    subst hx
    exact ⟨hacc1, le_refl 1⟩
  | cons ps rest ih =>
    intro acc hacc0 hacc1 hchains
    have hacc0' : 0 ≤ min 1 (acc + stepWeight) :=
      le_min (by norm_num) (add_nonneg hacc0 hw)
    have hacc1' : min 1 (acc + stepWeight) ≤ 1 := min_le_left 1 _
    have hstep : acc ≤ min 1 (acc + stepWeight) := by
      calc acc = min 1 acc := (min_eq_right hacc1).symm
        _ ≤ min 1 (acc + stepWeight) :=
            min_le_min (le_refl 1) (le_add_of_nonneg_right hw)
    have hrest := ih (min 1 (acc + stepWeight)) hacc0' hacc1'
      (fun qs hqs => hchains qs (List.mem_cons_of_mem _ hqs))
    have hbounds := stepEmits_bounds acc stepWeight ps hacc1 hw
    refine ⟨?_, ?_, ?_⟩
    · refine List.Chain'.append
        (stepEmits_chain acc stepWeight ps hw (hchains ps (List.mem_cons_self _ _)))
        hrest.1 ?_
      intro x hx y hy
      have hxm := (hbounds x (List.mem_of_mem_getLast? hx)).2
      have hym := (hrest.2.1 y (List.mem_of_mem_head? hy)).1
      exact hxm.trans hym
    · intro x hx
      rcases List.mem_append.mp hx with hx | hx
      · have := hbounds x hx
        exact ⟨this.1, this.2.trans (min_le_left 1 _)⟩
      · have := hrest.2.1 x hx
        exact ⟨hstep.trans this.1, this.2⟩
    · show (stepEmits acc stepWeight ps ++
          pipelineEmitsAux stepWeight (min 1 (acc + stepWeight)) rest).getLast? = some 1
      rw [List.getLast?_append_of_ne_nil _ (pipelineEmitsAux_ne_nil stepWeight rest _)]
      exact hrest.2.2

/-- C3 amended: when each step's own progress sequence additionally is
non-decreasing (as every built-in workload's is), the overall progress
sequence is non-decreasing, stays within `[0,1]`, and its final emission is
exactly `1.0` (emitted by the forced terminal `progress(1.0)`, at or after
the last step's own emission) — but `1.0` may be emitted more than once. -/
theorem pipeline_progress_amended (stepEmissions : List (List ℚ))
    (hbound : ∀ ps ∈ stepEmissions, ∀ p ∈ ps, 0 ≤ p ∧ p ≤ 1)
    (hmono : ∀ ps ∈ stepEmissions, List.Chain' (· ≤ ·) ps) :
    List.Chain' (· ≤ ·) (pipelineEmits stepEmissions) ∧
    (∀ x ∈ pipelineEmits stepEmissions, 0 ≤ x ∧ x ≤ 1) ∧
    (pipelineEmits stepEmissions).getLast? = some 1 := by
  have hw : (0 : ℚ) ≤ 1 / (stepEmissions.length : ℚ) :=
    div_nonneg (by norm_num) (Nat.cast_nonneg _)
  have h := pipelineEmitsAux_spec (1 / (stepEmissions.length : ℚ)) hw
    stepEmissions 0 (le_refl 0) (by norm_num) hmono
  exact ⟨h.1, fun x hx => ⟨(h.2.1 x hx).1, (h.2.1 x hx).2⟩, h.2.2⟩

/-- Witness for C3's amended claim on the spec's own two-step scenario
(each step emitting `1.0` once): the overall sequence is `[1/2, 1, 1]`. -/
theorem pipeline_progress_amended_witness :
    (∀ ps ∈ ([[1], [1]] : List (List ℚ)), ∀ p ∈ ps, 0 ≤ p ∧ p ≤ 1) ∧
    (List.Chain' (· ≤ ·) (pipelineEmits [[1], [1]]) ∧
     (∀ x ∈ pipelineEmits [[(1 : ℚ)], [1]], 0 ≤ x ∧ x ≤ 1) ∧
     (pipelineEmits [[(1 : ℚ)], [1]]).getLast? = some 1) :=
  ⟨by decide, pipeline_progress_amended [[1], [1]] (by decide)
    (by
      intro ps hps
      have hps1 : ps = [1] := by
        rcases List.mem_cons.mp hps with h | h
        · exact h
        · rcases List.mem_cons.mp h with h | h
          · exact h
          · exact absurd h (List.not_mem_nil ps)
      rw [hps1]
      exact List.chain'_singleton 1)⟩

/-! ## Pipeline step failure (CustomTaskRegistry.cpp lines 142-158) and the
worker's exception barrier (ThreadPool.cpp lines 52-70) -/

/-- The composite runnable's step loop: each step either returns a result
string or raises a failure (`Except.error`). A raised failure propagates
out of the loop immediately, discarding the per-step result records; on
success the ordered list of step results is produced. -/
def runSteps : List (Except String String) → Except String (List String)
  | [] => Except.ok []
  | Except.error e :: _ => Except.error e
  | Except.ok r :: rest => (runSteps rest).map (fun rs => r :: rs)

/-- How many steps of the composite runnable actually execute: every step
up to and including the first failing one. -/
def executedSteps : List (Except String String) → Nat
  | [] => 0
  | Except.error _ :: _ => 1
  | Except.ok _ :: rest => 1 + executedSteps rest

/-- The worker's try/catch around `task->work(...)` (ThreadPool.cpp lines
52-70): a normal return is kept, a raised exception is caught and converted
to an error `TaskResult` — never propagated further. -/
def workerExecute (outcome : Except String TaskResult) : TaskResult :=
  match outcome with
  | Except.ok r => r
  | Except.error msg => makeErrorResult msg

/-- C7: if step `k` of a pipeline raises a failure and all earlier steps
succeed, exactly the first `k+1` steps execute (none after the failing
one), the composite outcome is that failure regardless of how successful
records would have been converted, and the worker catches it and delivers
an Error `TaskResult` carrying the failure message. -/
theorem step_failure_aborts_pipeline (pre post : List (Except String String))
    (e : String) (hpre : ∀ s ∈ pre, ∃ r, s = Except.ok r) :
    executedSteps (pre ++ Except.error e :: post) = pre.length + 1 ∧
    runSteps (pre ++ Except.error e :: post) = Except.error e ∧
    ∀ f : List String → TaskResult,
      workerExecute (Except.map f (runSteps (pre ++ Except.error e :: post))) =
        makeErrorResult e := by
  induction pre with
  | nil => exact ⟨rfl, rfl, fun f => rfl⟩
  | cons s rest ih =>
    obtain ⟨r, rfl⟩ := hpre s (List.mem_cons_self s rest)
    have hrest := ih (fun t ht => hpre t (List.mem_cons_of_mem _ ht))
    refine ⟨?_, ?_, ?_⟩
    · show 1 + executedSteps (rest ++ Except.error e :: post) = rest.length + 1 + 1
      rw [hrest.1]
      omega
    · show (runSteps (rest ++ Except.error e :: post)).map (fun rs => r :: rs) =
        Except.error e
      rw [hrest.2.1]
      rfl
    · intro f
      show workerExecute (Except.map f
        ((runSteps (rest ++ Except.error e :: post)).map (fun rs => r :: rs))) =
        makeErrorResult e
      rw [hrest.2.1]
      rfl

/-- Witness for C7: a two-step pipeline whose second step fails — one
successful step record is produced and then discarded, the failure is the
outcome, and the worker converts it to an Error result. -/
theorem step_failure_aborts_pipeline_witness :
    executedSteps ([Except.ok "a"] ++ Except.error "boom" :: [Except.ok "b"]) = 2 ∧
    runSteps ([Except.ok "a"] ++ Except.error "boom" :: [Except.ok "b"]) =
      Except.error "boom" ∧
    ∀ f : List String → TaskResult,
      workerExecute (Except.map f
        (runSteps ([Except.ok "a"] ++ Except.error "boom" :: [Except.ok "b"]))) =
        makeErrorResult "boom" :=
  step_failure_aborts_pipeline [Except.ok "a"] [Except.ok "b"] "boom"
    (fun s hs => by
      rcases List.mem_cons.mp hs with h | h
      · exact ⟨"a", h⟩
      · exact absurd h (List.not_mem_nil s))

/-! ## JSON values, descriptor parsing and validation (TaskUtils.cpp) -/

/-- A structured JSON value as handled by nlohmann::json in the sources,
with JSON numbers restricted to integers (the numeric parameters the code
validates and consumes are integral; `is_number_float` fields play no role
in any modelled path). Objects are field lists with unique keys. -/
inductive Json where
  | null
  | bool (b : Bool)
  | num (n : Int)
  | str (s : String)
  | arr (elems : List Json)
  | obj (fields : List (String × Json))

/-- `nlohmann::json::find` on an object's field list (objects hold unique
keys, so first match is the match). -/
def lookupField : List (String × Json) → String → Option Json
  | [], _ => none
  | (k, v) :: rest, key => if k = key then some v else lookupField rest key

/-- JSON string escaping for `dump` (quote and backslash; finer escaping of
control characters is not exercised by any modelled value). -/
def jsonEscape (s : String) : String :=
  s.foldl (fun acc c =>
    if c = '\\' then acc ++ "\\\\"
    else if c = '"' then acc ++ "\\\"" else acc ++ c.toString) ""

mutual

/-- `nlohmann::json::dump()`, producing the compact serialization used when
a descriptor field of structured type is stored as a parameter string. -/
def Json.dump : Json → String
  | .null => "null"
  | .bool true => "true"
  | .bool false => "false"
  | .num n => toString n
  | .str s => "\"" ++ jsonEscape s ++ "\""
  | .arr elems => "[" ++ Json.dumpList elems ++ "]"
  | .obj fields => "\x7b" ++ Json.dumpFields fields ++ "\x7d"

/-- Comma-joined serialization of array elements. -/
def Json.dumpList : List Json → String
  | [] => ""
  | [x] => x.dump
  | x :: rest => x.dump ++ "," ++ Json.dumpList rest

/-- Comma-joined serialization of object fields. -/
def Json.dumpFields : List (String × Json) → String
  | [] => ""
  | [(k, v)] => "\"" ++ jsonEscape k ++ "\":" ++ v.dump
  | (k, v) :: rest => "\"" ++ jsonEscape k ++ "\":" ++ v.dump ++ "," ++ Json.dumpFields rest

end

/-- The whitespace characters skipped by `std::stoll` (via `strtoll`). -/
def isSpaceChar (c : Char) : Bool :=
  c = ' ' || c = '\t' || c = '\n' || c = '\x0b' || c = '\x0c' || c = '\r'

/-- Value of a digit run. -/
def digitsToNat (ds : List Char) : Nat :=
  ds.foldl (fun acc c => acc * 10 + (c.toNat - '0'.toNat)) 0

/-- `LLONG_MAX`, the upper bound of the C++ `long long`. -/
def llongMax : Int := 9223372036854775807

/-- `LLONG_MIN`, the lower bound of the C++ `long long`. -/
def llongMin : Int := -9223372036854775808

/-- The three ways a `std::stoll` call can end: a converted value, a
`std::invalid_argument` throw (no digits to convert), or a
`std::out_of_range` throw (the converted value does not fit in
`long long`). -/
inductive StollOutcome where
  | value (n : Int)
  | noConversion
  | outOfRange
  deriving DecidableEq, Repr

/-- `std::stoll`: skip leading whitespace, read an optional sign, then the
longest run of decimal digits; throw `invalid_argument` (`noConversion`)
when that run is empty; throw `out_of_range` when the signed value of the
digit prefix falls outside `[LLONG_MIN, LLONG_MAX]`; otherwise return the
value — any trailing junk after the digits is ignored. -/
def stoll (s : String) : StollOutcome :=
  let cs := s.data.dropWhile (fun c => isSpaceChar c)
  let signed : Int × List Char :=
    match cs with
    | '-' :: rest => (-1, rest)
    | '+' :: rest => (1, rest)
    | _ => (1, cs)
  let digits := signed.2.takeWhile Char.isDigit
  if digits.isEmpty then StollOutcome.noConversion
  else
    let n := signed.1 * (digitsToNat digits : Int)
    if n < llongMin ∨ llongMax < n then StollOutcome.outOfRange
    else StollOutcome.value n

/-- `struct TaskDescriptor` (TaskUtils.h): the type tag, the stringified
parameter map, and the raw structured value. -/
structure TaskDescriptor where
  type : String
  params : List (String × String)
  json : Json

/-- Parameter lookup in the descriptor's params map. -/
def lookupParam : List (String × String) → String → Option String
  | [], _ => none
  | (k, v) :: rest, key => if k = key then some v else lookupParam rest key

/-- The stringification of one descriptor field (TaskUtils.cpp lines
76-86): strings kept, integers via `std::to_string`, booleans as
`true`/`false`, anything else dumped. -/
def paramValue : Json → String
  | Json.str s => s
  | Json.num n => toString n
  | Json.bool b => if b then "true" else "false"
  | v => v.dump

/-- The params map extracted from a descriptor object: every field except
`type`, stringified. -/
def paramsOf (fields : List (String × Json)) : List (String × String) :=
  (fields.filter (fun kv => kv.1 ≠ "type")).map (fun kv => (kv.1, paramValue kv.2))

/-- `requirePositive` inside `validateDescriptor` (TaskUtils.cpp lines
27-39): the key must be present and `std::stoll` of its value must succeed
and be positive; an `out_of_range` throw is caught and rejected as
"is out of range". The `value <= 0` case throws `std::invalid_argument`
inside the same `try` block whose handler catches `invalid_argument`, so
it too surfaces as the "must be a number" message. -/
def requirePositive (params : List (String × String)) (key : String) :
    Except String Unit :=
  match lookupParam params key with
  | none => Except.error ("Task descriptor missing required field: " ++ key)
  | some v =>
    match stoll v with
    | StollOutcome.noConversion => Except.error (key ++ " must be a number")
    | StollOutcome.outOfRange => Except.error (key ++ " is out of range")
    | StollOutcome.value n =>
      if n ≤ 0 then Except.error (key ++ " must be a number")
      else Except.ok ()

/-- `validateDescriptor` (TaskUtils.cpp lines 16-48). -/
def validateDescriptor (d : TaskDescriptor) : Except String Unit :=
  if d.type = "" then Except.error "Task descriptor missing type"
  else if d.type = "HEAVY_LOOP" then requirePositive d.params "iterations"
  else if d.type = "TIMED_LOOP" then requirePositive d.params "durationMs"
  else if d.type = "MIXED_LOOP" then requirePositive d.params "iterations"
  else Except.ok ()

/-- The structured-input branch of `parseTaskData` (TaskUtils.cpp lines
57-90), acting on the already-decoded JSON value: the input must be an
object with a string `type`; the remaining fields become params; the
descriptor is validated before being returned. (The legacy pipe-delimited
fallback taken on a JSON parse error feeds the same `validateDescriptor`.) -/
def parseTaskDataJson (j : Json) : Except String TaskDescriptor :=
  match j with
  | Json.obj fields =>
    (match lookupField fields "type" with
     | some (Json.str t) =>
       let d : TaskDescriptor := { type := t, params := paramsOf fields, json := j }
       (match validateDescriptor d with
        | Except.ok _ => Except.ok d
        | Except.error e => Except.error e)
     | _ => Except.error "Task descriptor missing string \"type\"")
  | _ => Except.error "Task descriptor must be a JSON object"

/-- The claim's notion of a numeric parameter string, following the spec's
words: an optional sign followed by one or more digits and nothing else.
(`std::stoll`, by contrast, accepts any string with a digit prefix.) -/
def isNumericString (s : String) : Bool :=
  let cs :=
    match s.data with
    | '-' :: rest => rest
    | '+' :: rest => rest
    | cs => cs
  !cs.isEmpty && cs.all Char.isDigit

/-- C8 counterexample: the descriptor value `"12abc"` for `iterations` is
not numeric, yet `parseTaskData` accepts the descriptor, because
`std::stoll` reads the digit prefix `12` and ignores the trailing junk —
refuting "fails ... whenever the required parameter is ... non-numeric". -/
theorem parse_validation_counterexample :
    isNumericString "12abc" = false ∧
    (parseTaskDataJson (Json.obj [("type", Json.str "HEAVY_LOOP"),
        ("iterations", Json.str "12abc")])).isOk = true :=
  ⟨rfl, rfl⟩

/-- The loop-parameter check as the code actually performs it: the key is
present and `std::stoll` extracts a strictly positive integer prefix that
fits in `long long`. -/
def loopParamOk (params : List (String × String)) (key : String) : Bool :=
  match lookupParam params key with
  | none => false
  | some v =>
    match stoll v with
    | StollOutcome.noConversion => false
    | StollOutcome.outOfRange => false
    | StollOutcome.value n => decide (0 < n)

/-- Acceptance predicate of the structured `parseTaskData` path: an object
with a non-empty string `type`, whose loop-style required parameter (when
the type is a loop built-in) passes the `stoll`-based positivity check. -/
def descriptorAccepted (j : Json) : Bool :=
  match j with
  | Json.obj fields =>
    (match lookupField fields "type" with
     | some (Json.str t) =>
       if t = "" then false
       else if t = "HEAVY_LOOP" then loopParamOk (paramsOf fields) "iterations"
       else if t = "TIMED_LOOP" then loopParamOk (paramsOf fields) "durationMs"
       else if t = "MIXED_LOOP" then loopParamOk (paramsOf fields) "iterations"
       else true
     | _ => false)
  | _ => false

theorem except_isOk_ok {ε α : Type} (a : α) :
    (Except.ok a : Except ε α).isOk = true := rfl

theorem except_isOk_error {ε α : Type} (e : ε) :
    (Except.error e : Except ε α).isOk = false := rfl

theorem requirePositive_isOk (params : List (String × String)) (key : String) :
    (requirePositive params key).isOk = loopParamOk params key := by
  unfold requirePositive loopParamOk
  cases hkey : lookupParam params key with
  | none => rfl
  | some v =>
    show (match stoll v with
        | StollOutcome.noConversion => Except.error (key ++ " must be a number")
        | StollOutcome.outOfRange => Except.error (key ++ " is out of range")
        | StollOutcome.value n =>
          if n ≤ 0 then Except.error (key ++ " must be a number")
          else Except.ok ()).isOk =
      (match stoll v with
        | StollOutcome.noConversion => false
        | StollOutcome.outOfRange => false
        | StollOutcome.value n => decide (0 < n))
    cases stoll v with
    | noConversion => rfl
    | outOfRange => rfl
    | value n =>
      show (if n ≤ 0 then Except.error (key ++ " must be a number")
          else (Except.ok () : Except String Unit)).isOk = decide (0 < n)
      by_cases hn : n ≤ 0
      · rw [if_pos hn]
        show false = decide (0 < n)
        rw [decide_eq_false (not_lt.mpr hn)]
      · rw [if_neg hn]
        show true = decide (0 < n)
        rw [decide_eq_true (not_le.mp hn)]

theorem validate_isOk (d : TaskDescriptor) :
    (validateDescriptor d).isOk =
      (if d.type = "" then false
       else if d.type = "HEAVY_LOOP" then loopParamOk d.params "iterations"
       else if d.type = "TIMED_LOOP" then loopParamOk d.params "durationMs"
       else if d.type = "MIXED_LOOP" then loopParamOk d.params "iterations"
       else true) := by
  unfold validateDescriptor
  by_cases h0 : d.type = ""
  · simp [h0, except_isOk_error]
  · by_cases h1 : d.type = "HEAVY_LOOP"
    · simp [h0, h1, requirePositive_isOk]
    · by_cases h2 : d.type = "TIMED_LOOP"
      · simp [h0, h1, h2, requirePositive_isOk]
      · by_cases h3 : d.type = "MIXED_LOOP"
        · simp [h0, h1, h2, h3, requirePositive_isOk]
        · simp [h0, h1, h2, h3, except_isOk_ok]

/-- C8 amended: `parseTaskData` (structured path) fails exactly when the
input is not an object, its `type` is missing, non-string or empty, or —
for HEAVY_LOOP and MIXED_LOOP (`iterations`) and TIMED_LOOP (`durationMs`)
— the required parameter is missing, `std::stoll` finds no strictly
positive integer prefix in it (so non-numeric junk after a positive digit
prefix is accepted), or the converted value overflows `long long` and is
rejected as out of range; on success the descriptor carries the `type` and
the remaining fields, stringified, as named parameters. -/
theorem parse_validation_amended (j : Json) :
    (parseTaskDataJson j).isOk = descriptorAccepted j ∧
    (∀ d, parseTaskDataJson j = Except.ok d →
      ∃ fields t, j = Json.obj fields ∧
        lookupField fields "type" = some (Json.str t) ∧
        d.type = t ∧ d.params = paramsOf fields) := by
  cases j with
  | obj fields =>
    cases hlt : lookupField fields "type" with
    | none => simp [parseTaskDataJson, descriptorAccepted, hlt, except_isOk_error]
    | some v =>
      cases v with
      | str t =>
        have hparse : parseTaskDataJson (Json.obj fields) =
            (match validateDescriptor
                { type := t, params := paramsOf fields, json := Json.obj fields } with
             | Except.ok _ =>
               Except.ok { type := t, params := paramsOf fields, json := Json.obj fields }
             | Except.error e => Except.error e) := by
          simp [parseTaskDataJson, hlt]
        have hacc : descriptorAccepted (Json.obj fields) =
            (validateDescriptor
              { type := t, params := paramsOf fields, json := Json.obj fields }).isOk := by
          rw [validate_isOk]
          simp [descriptorAccepted, hlt]
        cases hval : validateDescriptor
            { type := t, params := paramsOf fields, json := Json.obj fields } with
        | ok u =>
          rw [hval] at hparse
          refine ⟨?_, ?_⟩
          · rw [hparse, hacc, hval]
            rfl
          · intro d hd
            rw [hparse] at hd
            rw [Except.ok.injEq] at hd
            exact ⟨fields, t, rfl, hlt, by rw [← hd], by rw [← hd]⟩
        | error e =>
          rw [hval] at hparse
          refine ⟨?_, ?_⟩
          · rw [hparse, hacc, hval]
            rfl
          · intro d hd
            rw [hparse] at hd
            simp at hd
      | null => simp [parseTaskDataJson, descriptorAccepted, hlt, except_isOk_error]
      | bool b => simp [parseTaskDataJson, descriptorAccepted, hlt, except_isOk_error]
      | num n => simp [parseTaskDataJson, descriptorAccepted, hlt, except_isOk_error]
      | arr es => simp [parseTaskDataJson, descriptorAccepted, hlt, except_isOk_error]
      | obj fs => simp [parseTaskDataJson, descriptorAccepted, hlt, except_isOk_error]
  | null => simp [parseTaskDataJson, descriptorAccepted, except_isOk_error]
  | bool b => simp [parseTaskDataJson, descriptorAccepted, except_isOk_error]
  | num n => simp [parseTaskDataJson, descriptorAccepted, except_isOk_error]
  | str s => simp [parseTaskDataJson, descriptorAccepted, except_isOk_error]
  | arr es => simp [parseTaskDataJson, descriptorAccepted, except_isOk_error]

/-- A concrete well-formed HEAVY_LOOP descriptor input. -/
def sampleDescriptorJson : Json :=
  Json.obj [("type", Json.str "HEAVY_LOOP"), ("iterations", Json.str "5")]

/-- The descriptor `parseTaskData` produces for `sampleDescriptorJson`. -/
def sampleDescriptor : TaskDescriptor :=
  { type := "HEAVY_LOOP", params := [("iterations", "5")],
    json := sampleDescriptorJson }

/-- A HEAVY_LOOP descriptor whose iteration count exceeds `LLONG_MAX`. -/
def overflowDescriptorJson : Json :=
  Json.obj [("type", Json.str "HEAVY_LOOP"),
            ("iterations", Json.str "99999999999999999999")]

/-- Witness for C8's amended claim on a concrete accepted descriptor, and
on an over-`LLONG_MAX` iteration count, which both the model and the
program reject as out of range. -/
theorem parse_validation_amended_witness :
    ((parseTaskDataJson sampleDescriptorJson).isOk =
      descriptorAccepted sampleDescriptorJson) ∧
    (∃ fields t, sampleDescriptorJson = Json.obj fields ∧
      lookupField fields "type" = some (Json.str t) ∧
      sampleDescriptor.type = t ∧ sampleDescriptor.params = paramsOf fields) ∧
    ((parseTaskDataJson overflowDescriptorJson).isOk =
        descriptorAccepted overflowDescriptorJson ∧
      parseTaskDataJson overflowDescriptorJson =
        Except.error "iterations is out of range") :=
  ⟨(parse_validation_amended sampleDescriptorJson).1,
   (parse_validation_amended sampleDescriptorJson).2 sampleDescriptor rfl,
   (parse_validation_amended overflowDescriptorJson).1, rfl⟩

/-! ## Pipeline field resolution (CustomTaskRegistry.cpp lines 22-59 and
167-176) -/

/-- The `std::getline(ss, segment, '.')` loop: read a segment up to the
next dot or the end of input; after consuming a trailing dot the next read
hits end-of-stream with nothing read and fails, producing no further
segment. -/
def getlineAux : List Char → List Char → List String
  | acc, [] => [String.mk acc.reverse]
  | acc, c :: rest =>
    if c = '.' then
      String.mk acc.reverse ::
        (match rest with
         | [] => []
         | _ => getlineAux [] rest)
    else getlineAux (c :: acc) rest

/-- Splitting the dotted path (CustomTaskRegistry.cpp lines 34-44):
`getline` segments with the empty ones skipped. -/
def splitPath (path : String) : List String :=
  (match path.data with
   | [] => []
   | cs => getlineAux [] cs).filter (fun seg => seg ≠ "")

/-- `current->find(segment)`: nlohmann's `find` yields the field on an
object and `end()` (here `none`) on any non-object value. -/
def jsonFind (j : Json) (key : String) : Option Json :=
  match j with
  | Json.obj fields => lookupField fields key
  | _ => none

/-- The descent loop of `resolvePlaceholder` (lines 46-56): follow each
segment into the payload; the first missing segment aborts the walk. -/
def walkPath : Json → List String → Option Json
  | current, [] => some current
  | current, seg :: rest =>
    match jsonFind current seg with
    | none => none
    | some child => walkPath child rest

/-- `resolvePlaceholder` (CustomTaskRegistry.cpp lines 22-59): a non-object
value, or an object without a string `fromPayload`, is returned unchanged;
otherwise the dotted path is solved in the payload, falling back to the
`default` field when the walk fails, and failing with the
missing-required-field error when there is no default either. -/
def resolvePlaceholder (value payload : Json) : Except String Json :=
  match value with
  | Json.obj fields =>
    (match lookupField fields "fromPayload" with
     | some (Json.str path) =>
       (match walkPath payload (splitPath path) with
        | some found => Except.ok found
        | none =>
          match lookupField fields "default" with
          | some d => Except.ok d
          | none => Except.error ("Payload missing required field: " ++ path))
     | _ => Except.ok value)
  | _ => Except.ok value

/-- The field loop of `CustomTaskRegistry::instantiateDescriptor` (lines
169-174): the `type` field is kept, every other field is replaced by its
`resolvePlaceholder` resolution, and the first resolution failure aborts
the whole instantiation. -/
def instantiateFields (payload : Json) :
    List (String × Json) → Except String (List (String × Json))
  | [] => Except.ok []
  | (k, v) :: rest =>
    if k = "type" then
      (match instantiateFields payload rest with
       | Except.ok tail => Except.ok ((k, v) :: tail)
       | Except.error e => Except.error e)
    else
      (match resolvePlaceholder v payload with
       | Except.error e => Except.error e
       | Except.ok w =>
         match instantiateFields payload rest with
         | Except.ok tail => Except.ok ((k, w) :: tail)
         | Except.error e => Except.error e)

/-- `CustomTaskRegistry::instantiateDescriptor` (lines 167-176) on a step
template: every field except `type` is resolved against the payload; a
raised resolution failure propagates out of `createTask` before any step
executes. Registration guarantees each step template is an object; a
non-object is returned unchanged. -/
def instantiateDescriptor (descriptorTemplate payload : Json) : Except String Json :=
  match descriptorTemplate with
  | Json.obj fields =>
    (match instantiateFields payload fields with
     | Except.ok resolved => Except.ok (Json.obj resolved)
     | Except.error e => Except.error e)
  | other => Except.ok other

/-- The shape test for an indirection field: an object carrying a string
`fromPayload`, whose path that is. -/
def indirectionPath : Json → Option String
  | Json.obj fields =>
    (match lookupField fields "fromPayload" with
     | some (Json.str path) => some path
     | _ => none)
  | _ => none

/-- The `default` field of an indirection object. -/
def defaultOf : Json → Option Json
  | Json.obj fields => lookupField fields "default"
  | _ => none

theorem resolvePlaceholder_indirection (v payload : Json) (path : String)
    (hind : indirectionPath v = some path) :
    resolvePlaceholder v payload =
      (match walkPath payload (splitPath path) with
       | some found => Except.ok found
       | none =>
         match defaultOf v with
         | some d => Except.ok d
         | none => Except.error ("Payload missing required field: " ++ path)) := by
  cases v with
  | obj fields =>
    simp only [indirectionPath] at hind
    cases hfp : lookupField fields "fromPayload" with
    | none => rw [hfp] at hind; cases hind
    | some w =>
      cases w with
      | str p =>
        rw [hfp] at hind
        simp only [Option.some.injEq] at hind
        subst hind
        simp only [resolvePlaceholder, defaultOf, hfp]
      | null => rw [hfp] at hind; cases hind
      | bool b => rw [hfp] at hind; cases hind
      | num n => rw [hfp] at hind; cases hind
      | arr es => rw [hfp] at hind; cases hind
      | obj fs => rw [hfp] at hind; cases hind
  | null => cases hind
  | bool b => cases hind
  | num n => cases hind
  | str s => cases hind
  | arr es => cases hind

theorem resolvePlaceholder_literal (v payload : Json)
    (hind : indirectionPath v = none) :
    resolvePlaceholder v payload = Except.ok v := by
  cases v with
  | obj fields =>
    simp only [indirectionPath] at hind
    cases hfp : lookupField fields "fromPayload" with
    | none => simp [resolvePlaceholder, hfp]
    | some w =>
      cases w with
      | str p => rw [hfp] at hind; cases hind
      | null => simp [resolvePlaceholder, hfp]
      | bool b => simp [resolvePlaceholder, hfp]
      | num n => simp [resolvePlaceholder, hfp]
      | arr es => simp [resolvePlaceholder, hfp]
      | obj fs => simp [resolvePlaceholder, hfp]
  | null => rfl
  | bool b => rfl
  | num n => rfl
  | str s => rfl
  | arr es => rfl

theorem instantiateFields_isOk : ∀ (fields : List (String × Json)) (payload : Json),
    (instantiateFields payload fields).isOk = true ↔
      ∀ kv ∈ fields, kv.1 = "type" ∨ (resolvePlaceholder kv.2 payload).isOk = true := by
  intro fields
  induction fields with
  | nil =>
    intro payload
    simp only [instantiateFields, except_isOk_ok, true_iff]
    intro kv hkv
    exact absurd hkv (List.not_mem_nil kv)
  | cons kv rest ih =>
    intro payload
    obtain ⟨k, v⟩ := kv
    by_cases hty : k = "type"
    · have hstep : instantiateFields payload ((k, v) :: rest) =
          (match instantiateFields payload rest with
           | Except.ok tail => Except.ok ((k, v) :: tail)
           | Except.error e => Except.error e) := by
        simp [instantiateFields, hty]
      rw [hstep]
      cases hrest : instantiateFields payload rest with
      | ok tail =>
        simp only [except_isOk_ok, true_iff]
        intro u hu
        rcases List.mem_cons.mp hu with hu | hu
        · subst hu; exact Or.inl hty
        · exact (ih payload).mp (by rw [hrest]; rfl) u hu
      | error e =>
        simp only [except_isOk_error, Bool.false_eq_true, false_iff]
        intro hall
        have : (instantiateFields payload rest).isOk = true :=
          (ih payload).mpr (fun u hu => hall u (List.mem_cons_of_mem _ hu))
        rw [hrest] at this
        cases this
    · have hstep : instantiateFields payload ((k, v) :: rest) =
          (match resolvePlaceholder v payload with
           | Except.error e => Except.error e
           | Except.ok w =>
             match instantiateFields payload rest with
             | Except.ok tail => Except.ok ((k, w) :: tail)
             | Except.error e => Except.error e) := by
        simp [instantiateFields, hty]
      rw [hstep]
      cases hres : resolvePlaceholder v payload with
      | error e =>
        simp only [except_isOk_error, Bool.false_eq_true, false_iff]
        intro hall
        rcases hall (k, v) (List.mem_cons_self _ _) with h | h
        · exact hty h
        · rw [hres] at h; cases h
      | ok w =>
        cases hrest : instantiateFields payload rest with
        | ok tail =>
          simp only [except_isOk_ok, true_iff]
          intro u hu
          rcases List.mem_cons.mp hu with hu | hu
          · subst hu
            exact Or.inr (by rw [hres]; rfl)
          · exact (ih payload).mp (by rw [hrest]; rfl) u hu
        | error e =>
          simp only [except_isOk_error, Bool.false_eq_true, false_iff]
          intro hall
          have : (instantiateFields payload rest).isOk = true :=
            (ih payload).mpr (fun u hu => hall u (List.mem_cons_of_mem _ hu))
          rw [hrest] at this
          cases this

theorem instantiateFields_ok_spec :
    ∀ (fields : List (String × Json)) (payload : Json)
      (resolved : List (String × Json)),
      instantiateFields payload fields = Except.ok resolved →
      List.Forall₂ (fun kv kw => kv.1 = kw.1 ∧
        (kv.1 = "type" → kw.2 = kv.2) ∧
        (kv.1 ≠ "type" → resolvePlaceholder kv.2 payload = Except.ok kw.2))
        fields resolved := by
  intro fields
  induction fields with
  | nil =>
    intro payload resolved h
    simp only [instantiateFields, Except.ok.injEq] at h
    subst h
    exact List.Forall₂.nil
  | cons kv rest ih =>
    intro payload resolved h
    obtain ⟨k, v⟩ := kv
    by_cases hty : k = "type"
    · rw [show instantiateFields payload ((k, v) :: rest) =
          (match instantiateFields payload rest with
           | Except.ok tail => Except.ok ((k, v) :: tail)
           | Except.error e => Except.error e) by simp [instantiateFields, hty]] at h
      cases hrest : instantiateFields payload rest with
      | ok tail =>
        rw [hrest] at h
        simp only [Except.ok.injEq] at h
        subst h
        exact List.Forall₂.cons
          ⟨rfl, fun _ => rfl, fun hk => absurd hty hk⟩
          (ih payload tail hrest)
      | error e => rw [hrest] at h; cases h
    · rw [show instantiateFields payload ((k, v) :: rest) =
          (match resolvePlaceholder v payload with
           | Except.error e => Except.error e
           | Except.ok w =>
             match instantiateFields payload rest with
             | Except.ok tail => Except.ok ((k, w) :: tail)
             | Except.error e => Except.error e) by simp [instantiateFields, hty]] at h
      cases hres : resolvePlaceholder v payload with
      | error e => rw [hres] at h; cases h
      | ok w =>
        rw [hres] at h
        cases hrest : instantiateFields payload rest with
        | ok tail =>
          rw [hrest] at h
          simp only [Except.ok.injEq] at h
          subst h
          exact List.Forall₂.cons
            ⟨rfl, fun hk => absurd hk hty, fun _ => hres⟩
            (ih payload tail hrest)
        | error e => rw [hrest] at h; cases h

/-- C9: for every step-template field other than `type`: an indirection
object (a JSON object with a string `fromPayload`) is replaced by the
payload value reached by splitting the dotted path on `.` and descending
into nested objects; when the path is absent the `default` is substituted
if present and otherwise the instantiation fails with the
missing-required-field error before any step executes; non-indirection
fields are kept literally; instantiation succeeds exactly when every
non-`type` field resolves, and then each field is replaced by its
resolution. -/
theorem pipeline_field_resolution (payload : Json) (fields : List (String × Json)) :
    (∀ v path found, indirectionPath v = some path →
       walkPath payload (splitPath path) = some found →
       resolvePlaceholder v payload = Except.ok found) ∧
    (∀ v path d, indirectionPath v = some path →
       walkPath payload (splitPath path) = none → defaultOf v = some d →
       resolvePlaceholder v payload = Except.ok d) ∧
    (∀ v path, indirectionPath v = some path →
       walkPath payload (splitPath path) = none → defaultOf v = none →
       resolvePlaceholder v payload =
         Except.error ("Payload missing required field: " ++ path)) ∧
    (∀ v, indirectionPath v = none → resolvePlaceholder v payload = Except.ok v) ∧
    ((instantiateDescriptor (Json.obj fields) payload).isOk = true ↔
       ∀ kv ∈ fields, kv.1 = "type" ∨ (resolvePlaceholder kv.2 payload).isOk = true) ∧
    (∀ resolved, instantiateDescriptor (Json.obj fields) payload =
        Except.ok (Json.obj resolved) →
      List.Forall₂ (fun kv kw => kv.1 = kw.1 ∧
        (kv.1 = "type" → kw.2 = kv.2) ∧
        (kv.1 ≠ "type" → resolvePlaceholder kv.2 payload = Except.ok kw.2))
        fields resolved) := by
  refine ⟨?_, ?_, ?_, ?_, ?_, ?_⟩
  · intro v path found hind hwalk
    rw [resolvePlaceholder_indirection v payload path hind, hwalk]
  · intro v path d hind hwalk hdef
    rw [resolvePlaceholder_indirection v payload path hind, hwalk, hdef]
  · intro v path hind hwalk hdef
    rw [resolvePlaceholder_indirection v payload path hind, hwalk, hdef]
  · intro v hind
    exact resolvePlaceholder_literal v payload hind
  · have hfields : instantiateDescriptor (Json.obj fields) payload =
        (match instantiateFields payload fields with
         | Except.ok resolved => Except.ok (Json.obj resolved)
         | Except.error e => Except.error e) := rfl
    rw [hfields]
    cases hif : instantiateFields payload fields with
    | ok resolved =>
      simp only [except_isOk_ok, true_iff]
      exact (instantiateFields_isOk fields payload).mp (by rw [hif]; rfl)
    | error e =>
      simp only [except_isOk_error, Bool.false_eq_true, false_iff]
      intro hall
      have := (instantiateFields_isOk fields payload).mpr hall
      rw [hif] at this
      cases this
  · intro resolved h
    have hfields : instantiateDescriptor (Json.obj fields) payload =
        (match instantiateFields payload fields with
         | Except.ok r => Except.ok (Json.obj r)
         | Except.error e => Except.error e) := rfl
    rw [hfields] at h
    cases hif : instantiateFields payload fields with
    | ok r =>
      rw [hif] at h
      simp only [Except.ok.injEq, Json.obj.injEq] at h
      subst h
      exact instantiateFields_ok_spec fields payload r hif
    | error e => rw [hif] at h; cases h

/-- The first step template of the spec's `"greet"` scenario. -/
def greetStepTemplate : Json :=
  Json.obj [("type", Json.str "INSTANT_MESSAGE"),
            ("message", Json.obj [("fromPayload", Json.str "name"),
                                  ("default", Json.str "stranger")])]

/-- Witness for C9 on the `"greet"` scenario with an empty payload: the
`message` indirection falls back to its default `"stranger"`, and the
instantiated step keeps its `type` and carries the resolved `message`. -/
theorem pipeline_field_resolution_witness :
    resolvePlaceholder (Json.obj [("fromPayload", Json.str "name"),
        ("default", Json.str "stranger")]) (Json.obj []) =
      Except.ok (Json.str "stranger") ∧
    instantiateDescriptor greetStepTemplate (Json.obj []) =
      Except.ok (Json.obj [("type", Json.str "INSTANT_MESSAGE"),
        ("message", Json.str "stranger")]) ∧
    List.Forall₂ (fun kv kw => kv.1 = kw.1 ∧
        (kv.1 = "type" → kw.2 = kv.2) ∧
        (kv.1 ≠ "type" → resolvePlaceholder kv.2 (Json.obj []) = Except.ok kw.2))
      [("type", Json.str "INSTANT_MESSAGE"),
       ("message", Json.obj [("fromPayload", Json.str "name"),
                             ("default", Json.str "stranger")])]
      [("type", Json.str "INSTANT_MESSAGE"), ("message", Json.str "stranger")] :=
  ⟨(pipeline_field_resolution (Json.obj []) []).2.1
      (Json.obj [("fromPayload", Json.str "name"), ("default", Json.str "stranger")])
      "name" (Json.str "stranger") rfl rfl rfl,
   rfl,
   (pipeline_field_resolution (Json.obj [])
      [("type", Json.str "INSTANT_MESSAGE"),
       ("message", Json.obj [("fromPayload", Json.str "name"),
                             ("default", Json.str "stranger")])]).2.2.2.2.2
      [("type", Json.str "INSTANT_MESSAGE"), ("message", Json.str "stranger")] rfl⟩

/-! ## Built-in workloads (TaskUtils.cpp `createTaskFunction`, lines
159-245) and their indifference to the worker's cancellation predicate
(ThreadPool.cpp lines 59-62) -/

/-- `getLongParam` (TaskUtils.cpp lines 135-146): missing keys fall back
to the default, and the `catch (...)` turns both `stoll` failure modes
(`invalid_argument` and `out_of_range`) into the default as well. -/
def getLongParam (descriptor : TaskDescriptor) (key : String)
    (defaultValue : Int) : Int :=
  match lookupParam descriptor.params key with
  | none => defaultValue
  | some v =>
    match stoll v with
    | StollOutcome.noConversion => defaultValue
    | StollOutcome.outOfRange => defaultValue
    | StollOutcome.value n => n

/-- `getStringParam` (TaskUtils.cpp lines 148-155). -/
def getStringParam (descriptor : TaskDescriptor) (key : String)
    (defaultValue : String) : String :=
  match lookupParam descriptor.params key with
  | none => defaultValue
  | some v => v

/-- The value a built-in runnable returns, with the `ostringstream`
decimal formatting of the C++ doubles abstracted into the exact
accumulated quantity. -/
inductive BuiltinResult where
  | heavyTotal (total : ℚ)
  | timed (iterations : Nat) (sum : ℚ)
  | mixedTotal (total : ℚ)
  | message (text : String)

/-- The observable behaviour of one built-in runnable execution: how many
loop-body iterations ran, the progress values emitted, and the result. -/
structure RunObs where
  loopIterations : Nat
  progressValues : List ℚ
  result : BuiltinResult

/-- The HEAVY_LOOP body (TaskUtils.cpp lines 162-175), with `std::sqrt`
abstracted as `sq`: progress at every `chunk`-th iteration and at the last
one, the accumulated total as result. -/
def heavyLoopObs (sq : Int → ℚ) (iterations : Nat) : RunObs :=
  let chunk := max 1 (iterations / 100)
  { loopIterations := iterations
    progressValues := (List.range iterations).filterMap (fun i =>
      if i % chunk = 0 ∨ i = iterations - 1 then
        some (min 1 ((i + 1 : ℚ) / (iterations : ℚ)))
      else none)
    result := BuiltinResult.heavyTotal
      ((List.range iterations).foldl (fun acc i => acc + sq i) 0) }

/-- The MIXED_LOOP body (TaskUtils.cpp lines 217-230): as HEAVY_LOOP but
summing `sq (i + offset)`. -/
def mixedLoopObs (sq : Int → ℚ) (iterations : Nat) (offset : Int) : RunObs :=
  let chunk := max 1 (iterations / 100)
  { loopIterations := iterations
    progressValues := (List.range iterations).filterMap (fun i =>
      if i % chunk = 0 ∨ i = iterations - 1 then
        some (min 1 ((i + 1 : ℚ) / (iterations : ℚ)))
      else none)
    result := BuiltinResult.mixedTotal
      ((List.range iterations).foldl (fun acc i => acc + sq (i + offset)) 0) }

/-- The TIMED_LOOP while-loop (TaskUtils.cpp lines 187-199) driven by the
successive steady-clock readings `ticks` (milliseconds since start): loop
while the reading is before the deadline, accumulate, and emit throttled
progress whenever the reading passed `nextUpdate`, scheduling the next
update 100ms later. Returns emitted progress, iteration count and sum. -/
def timedTicksRun (sq : Int → ℚ) (durationMs : Int) :
    List ℚ → ℚ → Nat → ℚ → List ℚ × Nat × ℚ
  | [], _, iters, sum => ([], iters, sum)
  | t :: rest, nextUpdate, iters, sum =>
    if t < (durationMs : ℚ) then
      let sum' := sum + sq ((iters % 10000 : Nat) + 1)
      let iters' := iters + 1
      if nextUpdate ≤ t then
        let next := timedTicksRun sq durationMs rest (t + 100) iters' sum'
        ((if 0 < durationMs then min 1 (t / (durationMs : ℚ)) else 1) :: next.1,
          next.2)
      else timedTicksRun sq durationMs rest nextUpdate iters' sum'
    else ([], iters, sum)

/-- The TIMED_LOOP body (TaskUtils.cpp lines 178-211): the throttled loop
followed by the terminal `progress(1.0)` and the result message's
iteration count and sum. -/
def timedLoopObs (sq : Int → ℚ) (durationMs : Int) (ticks : List ℚ) : RunObs :=
  let run := timedTicksRun sq durationMs ticks 0 0 0
  { loopIterations := run.2.1
    progressValues := run.1 ++ [1]
    result := BuiltinResult.timed run.2.1 run.2.2 }

/-- `createTaskFunction` (TaskUtils.cpp lines 159-245) as an observation
function. The worker invokes `task->work(progressEmitter, cancellationCheck)`
(ThreadPool.cpp lines 59-62); `isCancelled` is that cancellation predicate
(its value at each successive poll). None of the built-in bodies consults
it — exactly as in the source, where the returned lambdas never invoke the
predicate. `ticks` drives the TIMED_LOOP clock and is unused elsewhere. -/
def createTaskFunctionObs (sq : Int → ℚ) (descriptor : TaskDescriptor)
    (ticks : List ℚ) (isCancelled : Nat → Bool) : RunObs :=
  if descriptor.type = "HEAVY_LOOP" then
    heavyLoopObs sq (max 0 (getLongParam descriptor "iterations" 0)).toNat
  else if descriptor.type = "TIMED_LOOP" then
    timedLoopObs sq (max 0 (getLongParam descriptor "durationMs" 0)) ticks
  else if descriptor.type = "MIXED_LOOP" then
    mixedLoopObs sq (max 0 (getLongParam descriptor "iterations" 0)).toNat
      (getLongParam descriptor "offset" 0)
  else if descriptor.type = "INSTANT_MESSAGE" then
    { loopIterations := 0, progressValues := [1],
      result := BuiltinResult.message
        (getStringParam descriptor "message" "Task completed") }
  else
    { loopIterations := 0, progressValues := [1],
      result := BuiltinResult.message "Unknown task type" }

/-- C10: no built-in runnable consults the worker-supplied cancellation
predicate — two runs of the same descriptor on the same clock that differ
only in when (or whether) the cancellation flag is set perform the same
iterations, emit the same progress values and return the same result, so
a running built-in never ends early in response to `cancelTask`. -/
theorem builtin_runnables_ignore_cancellation (sq : Int → ℚ)
    (descriptor : TaskDescriptor) (ticks : List ℚ) (c1 c2 : Nat → Bool) :
    createTaskFunctionObs sq descriptor ticks c1 =
      createTaskFunctionObs sq descriptor ticks c2 := rfl

end ThreadForge
